import Mathlib

/-!
Verification of the extractify scanning core (`src/main.go`) against its
natural-language specification.

The embedding models byte content as `List Nat` (one entry per byte) and Go
strings as Lean `String`.  Functions present in `src/main.go` (`Run`,
`HandleResults`, `Request`, `main`'s dispatch) are translated directly from
the source.  The `scanner` package (`SecretsMatch`, `EndpointsMatch`,
`ParameterMatch`) and the slice utility `Dedupe` live outside the provided
source tree, so they are modelled from the spec's contracts; each such
definition carries a doc comment saying so.
-/

namespace Extractify

/-- Raw byte content of one input source (Go `[]byte`). -/
abbrev ByteData := List Nat

/-- Text view of raw bytes (Go `string(Data)`): each byte becomes one
character code, invalid encodings included, so the view is total. -/
def bytesToString (d : ByteData) : String :=
  String.mk (d.map fun c => Char.ofNat c)

/-- Modelled from the spec: a named secret rule of the Rule Registry.  The
compiled pattern (an implementation detail of the missing `scanner` package)
is abstracted as its total occurrence function: the left-to-right list of
non-overlapping matched substrings in a given content buffer. -/
structure Secret where
  name : String
  occurrences : ByteData → List String

/-- A single secret finding: the rule, the literal matched text, and the
source identifier used only for tagging (spec §3 `SecretMatch`). -/
structure SecretMatched where
  secret : Secret
  matched : String
  sourceID : String

/-- Modelled from the spec: `scanner.SecretsMatch` (missing from `src/`).
For each rule in registry order, every occurrence in document order yields
one `SecretMatched`; no deduplication, no occurrence limit. -/
def SecretsMatch (rules : List Secret) (source : String) (data : ByteData) :
    List SecretMatched :=
  rules.flatMap fun r =>
    (r.occurrences data).map fun m =>
      { secret := r, matched := m, sourceID := source }

/-- Byte is one of the delimiters a candidate token may not contain
(whitespace or quote); used by the spec-modelled endpoint tokenizer. -/
def isStopByte (c : Nat) : Bool :=
  c == 32 || c == 9 || c == 10 || c == 13 || c == 34 || c == 39

/-- Token bytes begin with the four ASCII bytes of `http`. -/
def startsWithHttp (t : List Nat) : Bool :=
  match t with
  | 104 :: 116 :: 116 :: 112 :: _ => true
  | _ => false

/-- Modelled from the spec: a candidate token begins with an HTTP(S) scheme
or with `/` followed by at least one further character. -/
def isEndpointCandidate (t : List Nat) : Bool :=
  startsWithHttp t || (match t with | 47 :: _ :: _ => true | _ => false)

/-- Modelled from the spec: `scanner.EndpointsMatch` (missing from `src/`).
Splits the content at whitespace/quote bytes and keeps every token that
looks path-like or URL-like, in document order, duplicates included. -/
def EndpointsMatch (data : ByteData) : List String :=
  ((data.splitOnP isStopByte).filter fun t => isEndpointCandidate t).map
    fun t => bytesToString t

/-- Go `strings.Split(s, sep)` for a one-character separator: split at every
occurrence of `sep`, separators removed, empty parts kept. -/
def goSplit (sep : Char) (s : String) : List String :=
  (s.toList.splitOnP fun c => c == sep).map fun cs => String.mk cs

/-- Go `strings.TrimSpace`: remove leading and trailing whitespace. -/
def trimSpace (s : String) : String :=
  String.mk
    (((s.toList.dropWhile Char.isWhitespace).reverse.dropWhile
        Char.isWhitespace).reverse)

/-- Characters allowed in a parameter name token. -/
def isIdentChar (c : Char) : Bool :=
  c.isAlphanum || c == '_'

/-- The trailing run of identifier characters of a string (possibly empty). -/
def trailingIdent (s : String) : String :=
  String.mk ((s.toList.reverse.takeWhile isIdentChar).reverse)

/-- Modelled from the spec: `scanner.ParameterMatch` (missing from `src/`).
Extracts the name immediately preceding each `=` sign, in document order,
duplicates included. -/
def ParameterMatch (s : String) : List String :=
  (((goSplit '=' s).dropLast.map trailingIdent).filter fun t => t != "")

/-- Modelled from the spec: `sUtils.Dedupe`, stable first-occurrence
deduplication.  `seen` accumulates the values already emitted. -/
def dedupeAux {α : Type} [DecidableEq α] : List α → List α → List α
  | _, [] => []
  | seen, x :: xs =>
    if x ∈ seen then dedupeAux seen xs else x :: dedupeAux (x :: seen) xs

/-- Modelled from the spec: `sUtils.Dedupe` removes exact duplicates keeping
the position of each value's first occurrence. -/
def Dedupe {α : Type} [DecidableEq α] (l : List α) : List α :=
  dedupeAux [] l

/-- The classifier's prefix test, translated from
`len(v) >= 4 && v[:4] == "http" || len(v) >= 5 && v[:5] == "https"`
(`src/main.go:125`; Go `&&` binds tighter than `||`). -/
def isUrlCandidate (v : String) : Bool :=
  (decide (4 ≤ v.toList.length) && (v.toList.take 4 == "http".toList)) ||
    (decide (5 ≤ v.toList.length) && (v.toList.take 5 == "https".toList))

/-- One iteration of the classifier loop in `Run` (`src/main.go:124-131`):
append the candidate to `urls` if the prefix test passes, else to
`endpoints`. -/
def classifyStep (acc : List String × List String) (v : String) :
    List String × List String :=
  if isUrlCandidate v then (acc.1 ++ [v], acc.2) else (acc.1, acc.2 ++ [v])

/-- The classifier loop of `Run` over the raw endpoint-matcher output,
starting from two empty accumulators. -/
def classify (l : List String) : List String × List String :=
  l.foldl classifyStep ([], [])

/-- Aggregated result of one scan (the four-tuple returned by `Run`). -/
structure ScanResult where
  secrets : List SecretMatched
  urls : List String
  endpoints : List String
  parameters : List String

/-- Translation of `Run` (`src/main.go:116-136`): apply the three matchers, classify the
raw endpoint matches, dedupe the parameters. -/
def Run (rules : List Secret) (data : ByteData) (source : String) : ScanResult :=
  let secretMatchResult := SecretsMatch rules source data
  let endpointMatchResult := EndpointsMatch data
  let sorted := classify endpointMatchResult
  let parameterMatchResults := ParameterMatch (bytesToString data)
  { secrets := secretMatchResult
    urls := sorted.1
    endpoints := sorted.2
    parameters := Dedupe parameterMatchResults }

/-- One printed block of the presentation layer: the observable effect of
`HandleSecret` / `HandleURL` / `HandleEndpoint` / `HandleParameter`
(`src/main.go:157-202`), carrying exactly the data it prints. -/
inductive Output where
  | secretsBlock : List SecretMatched → Output
  | urlsBlock : List String → Output
  | endpointsBlock : List String → Output
  | parametersBlock : List String → Output

/-- Translation of `HandleResults` (`src/main.go:138-155`): the if/else-if chain over the
five selection flags, returning the sequence of printed blocks. -/
def HandleResults (endpoint parameter url secret all : Bool)
    (secrets : List SecretMatched) (urls endpoints parameters : List String) :
    List Output :=
  if endpoint then [Output.endpointsBlock endpoints]
  else if parameter then [Output.parametersBlock parameters]
  else if url then [Output.urlsBlock urls]
  else if secret then [Output.secretsBlock secrets]
  else if all then
    [Output.secretsBlock secrets, Output.urlsBlock urls,
     Output.endpointsBlock endpoints, Output.parametersBlock parameters]
  else [Output.secretsBlock secrets]

/-- Number of `true` entries in a list of flags. -/
def countTrue (l : List Bool) : Nat :=
  (l.filter fun b => b).length

/-- The CLI options record (`src/main.go:20-31`). -/
structure options where
  file : String
  url : String
  list : String
  endpoint : Bool
  secret : Bool
  parameter : Bool
  all : Bool
  urls : Bool
  header : String
  verbose : Bool

/-- What the custom-header block of `Request` (`src/main.go:232-239`) does
with the `-H` value: nothing when empty, set the header when the split on
`:` has exactly two parts (value whitespace-trimmed), otherwise a fatal
configuration error. -/
inductive HeaderAction where
  | noHeader
  | setHeader (name value : String)
  | fatal
deriving DecidableEq, Repr

/-- The custom-header handling of `Request`, translated from
`src/main.go:232-239` (`strings.Split(Header, ":")`, length test, and
`strings.TrimSpace` on the value part). -/
def applyCustomHeader (header : String) : HeaderAction :=
  if header = "" then HeaderAction.noHeader
  else
    match goSplit ':' header with
    | [name, value] => HeaderAction.setHeader name (trimSpace value)
    | _ => HeaderAction.fatal

/-- The parsed URL view `Request` consumes (`urlutil.ParseURL` is an external
collaborator; only the `Scheme` and `Host` fields are read by `src/main.go`). -/
structure ParsedURL where
  scheme : String
  host : String

/-- A per-source error returned by `Request` to its caller, which logs it and
continues with the next source. -/
inductive ReqError where
  | invalidDomain
  | transport (msg : String)
deriving DecidableEq, Repr

/-- The outcome of one `Request` call.  `fatalConfig` models
`gologger.Fatal` (the process exits, nothing further runs); `failed` models
a returned error (the caller skips the source); `ok` carries the response
body handed to `Run`. -/
inductive ReqOutcome where
  | fatalConfig
  | failed (e : ReqError)
  | ok (data : ByteData)

/-- Translation of `Request` (`src/main.go:212-253`), with the network fetch (an external
collaborator) supplied as the `fetched` oracle: reject an empty host, then
process the custom header (fatal when malformed), then return the fetch
outcome. -/
def Request (u : ParsedURL) (header : String)
    (fetched : Except String ByteData) : ReqOutcome :=
  if u.host = "" then ReqOutcome.failed ReqError.invalidDomain
  else
    match applyCustomHeader header with
    | HeaderAction.fatal => ReqOutcome.fatalConfig
    | _ =>
      match fetched with
      | Except.error msg => ReqOutcome.failed (ReqError.transport msg)
      | Except.ok d => ReqOutcome.ok d

/-- One observable event of the batch loop (`src/main.go:101-113`): a source
skipped with a logged error, a source scanned and printed, or the process
aborted by a fatal configuration error. -/
inductive BatchEvent where
  | skipped (sourceID : String) (e : ReqError)
  | scanned (sourceID : String) (blocks : List Output)
  | aborted

/-- One source of the batch: its identifier string, its parsed-URL view, and
the fetch outcome the network collaborator would produce for it. -/
structure SourceInput where
  sourceID : String
  parsed : ParsedURL
  fetched : Except String ByteData

/-- The batch loop of `main` (`src/main.go:101-113`): for each URL call
`Request`; on error log and `continue`; on success `Run` then
`HandleResults`.  A fatal configuration error stops the whole process. -/
def processBatch (rules : List Secret) (o : options) :
    List SourceInput → List BatchEvent
  | [] => []
  | i :: rest =>
    match Request i.parsed o.header i.fetched with
    | ReqOutcome.fatalConfig => [BatchEvent.aborted]
    | ReqOutcome.failed e =>
        BatchEvent.skipped i.sourceID e :: processBatch rules o rest
    | ReqOutcome.ok data =>
        let r := Run rules data i.sourceID
        BatchEvent.scanned i.sourceID
            (HandleResults o.endpoint o.parameter o.urls o.secret o.all
              r.secrets r.urls r.endpoints r.parameters)
          :: processBatch rules o rest

/-- The inputs `main` reads from its environment: the `-file` read outcome,
whether the `-list` path exists and its whitespace-separated fields, whether
stdin is attached and its fields, and the per-URL parse/fetch collaborators. -/
structure InputEnv where
  fileRead : Except String ByteData
  listExists : Bool
  listFields : List String
  hasStdin : Bool
  stdinFields : List String
  parse : String → ParsedURL
  fetch : String → Except String ByteData

/-- The URL list of `main` (`src/main.go:80-99`): start from `[-url]`,
replace it by the list-file fields when the list file exists, replace again
by the stdin fields when stdin is attached. -/
def batchURLs (o : options) (env : InputEnv) : List String :=
  let urls := [o.url]
  let urls := if env.listExists then env.listFields else urls
  if env.hasStdin then env.stdinFields else urls

/-- The observable behaviour of one `main` invocation. -/
inductive RunTrace where
  | usage
  | fileScan (path : String) (blocks : List Output)
  | batch (events : List BatchEvent)

/-- The bytes `main` scans in `-file` mode: on a read error it logs and
continues with a nil buffer (`src/main.go:68-74`). -/
def fileData (env : InputEnv) : ByteData :=
  match env.fileRead with
  | Except.ok d => d
  | Except.error _ => []

/-- The dispatch of `main` (`src/main.go:62-113`): print usage when no input
is given; else when `-file` is non-empty scan exactly that file and return;
else run the batch loop over `batchURLs`. -/
def mainDispatch (rules : List Secret) (o : options) (env : InputEnv) :
    RunTrace :=
  if o.url = "" ∧ o.list = "" ∧ o.file = "" ∧ ¬(env.hasStdin = true) then
    RunTrace.usage
  else if o.file ≠ "" then
    let r := Run rules (fileData env) o.file
    RunTrace.fileScan o.file
      (HandleResults o.endpoint o.parameter o.urls o.secret o.all
        r.secrets r.urls r.endpoints r.parameters)
  else
    RunTrace.batch (processBatch rules o
      ((batchURLs o env).map fun s =>
        { sourceID := s, parsed := env.parse s, fetched := env.fetch s }))

/-! ## Helper lemmas -/

theorem foldl_classifyStep (l : List String) (us es : List String) :
    l.foldl classifyStep (us, es) =
      (us ++ l.filter fun v => isUrlCandidate v,
        es ++ l.filter fun v => !isUrlCandidate v) := by
  induction l generalizing us es with
  | nil => simp
  | cons v rest ih =>
    by_cases h : isUrlCandidate v = true <;>
      simp [classifyStep, h, ih, List.filter_cons]

theorem classify_eq (l : List String) :
    classify l =
      (l.filter fun v => isUrlCandidate v,
        l.filter fun v => !isUrlCandidate v) := by
  simpa using foldl_classifyStep l [] []

theorem length_filter_add_length_filter {α : Type} (p : α → Bool) (l : List α) :
    (l.filter p).length + (l.filter fun v => !p v).length = l.length := by
  induction l with
  | nil => rfl
  | cons x xs ih =>
    by_cases h : p x = true <;> simp [List.filter_cons, h] <;> omega

theorem mem_dedupeAux {α : Type} [DecidableEq α] (l : List α) (seen : List α)
    (y : α) : y ∈ dedupeAux seen l ↔ y ∈ l ∧ y ∉ seen := by
  induction l generalizing seen with
  | nil => simp [dedupeAux]
  | cons x xs ih =>
    by_cases h : x ∈ seen
    · simp only [dedupeAux, if_pos h, ih, List.mem_cons]
      constructor
      · exact fun ⟨hy, hn⟩ => ⟨Or.inr hy, hn⟩
      · rintro ⟨(rfl | hy), hn⟩
        · exact absurd h hn
        · exact ⟨hy, hn⟩
    · simp only [dedupeAux, if_neg h, List.mem_cons, ih]
      constructor
      · rintro (rfl | ⟨hy, hn⟩)
        · exact ⟨Or.inl rfl, h⟩
        · exact ⟨Or.inr hy, fun hs => hn (Or.inr hs)⟩
      · rintro ⟨(rfl | hy), hn⟩
        · exact Or.inl rfl
        · by_cases hyx : y = x
          · exact Or.inl hyx
          · exact Or.inr ⟨hy, by simp [List.mem_cons, hyx, hn]⟩

theorem dedupeAux_sublist {α : Type} [DecidableEq α] (l : List α)
    (seen : List α) : (dedupeAux seen l).Sublist l := by
  induction l generalizing seen with
  | nil => simp [dedupeAux]
  | cons x xs ih =>
    by_cases h : x ∈ seen
    · simpa only [dedupeAux, if_pos h] using (ih seen).cons x
    · simpa only [dedupeAux, if_neg h] using (ih (x :: seen)).cons₂ x

theorem dedupeAux_nodup {α : Type} [DecidableEq α] (l : List α)
    (seen : List α) : (dedupeAux seen l).Nodup := by
  induction l generalizing seen with
  | nil => simp [dedupeAux]
  | cons x xs ih =>
    by_cases h : x ∈ seen
    · simpa only [dedupeAux, if_pos h] using ih seen
    · simp only [dedupeAux, if_neg h, List.nodup_cons]
      refine ⟨fun hmem => ?_, ih (x :: seen)⟩
      exact ((mem_dedupeAux xs (x :: seen) x).mp hmem).2 (List.mem_cons_self x seen)

theorem dedupeAux_eq_self {α : Type} [DecidableEq α] (l : List α)
    (seen : List α) :
    l.Nodup → (∀ x ∈ l, x ∉ seen) → dedupeAux seen l = l := by
  induction l generalizing seen with
  | nil => exact fun _ _ => rfl
  | cons x xs ih =>
    intro hl hd
    simp only [dedupeAux, if_neg (hd x (List.mem_cons_self x xs))]
    congr 1
    refine ih (x :: seen) (List.Nodup.of_cons hl) fun y hy hmem => ?_
    rcases List.mem_cons.mp hmem with rfl | hseen
    · exact (List.nodup_cons.mp hl).1 hy
    · exact hd y (List.mem_cons_of_mem x hy) hseen

theorem dedupeAux_congr {α : Type} [DecidableEq α] (l : List α)
    (s₁ s₂ : List α) (h : ∀ y, y ∈ s₁ ↔ y ∈ s₂) :
    dedupeAux s₁ l = dedupeAux s₂ l := by
  induction l generalizing s₁ s₂ with
  | nil => rfl
  | cons x xs ih =>
    by_cases hx : x ∈ s₁
    · rw [dedupeAux, dedupeAux, if_pos hx, if_pos ((h x).mp hx)]
      exact ih s₁ s₂ h
    · rw [dedupeAux, dedupeAux, if_neg hx, if_neg fun hc => hx ((h x).mpr hc)]
      congr 1
      exact ih _ _ fun y => by simp [List.mem_cons, h y]

theorem dedupeAux_filter_seen {α : Type} [DecidableEq α] (l : List α)
    (seen : List α) (x : α) (hx : x ∈ seen) :
    dedupeAux seen l = dedupeAux seen (l.filter fun y => !(y == x)) := by
  induction l generalizing seen with
  | nil => rfl
  | cons z zs ih =>
    by_cases hz : z = x
    · subst hz
      simp only [List.filter_cons, beq_self_eq_true, Bool.not_true, if_neg]
      rw [dedupeAux, if_pos hx]
      exact ih seen hx
    · have hkeep : (!(z == x)) = true := by simp [hz]
      simp only [List.filter_cons, hkeep, if_pos]
      by_cases hzs : z ∈ seen
      · rw [dedupeAux, dedupeAux, if_pos hzs, if_pos hzs]
        exact ih seen hx
      · rw [dedupeAux, dedupeAux, if_neg hzs, if_neg hzs]
        congr 1
        exact ih (z :: seen) (List.mem_cons_of_mem z hx)

theorem dedupeAux_unseen {α : Type} [DecidableEq α] (l : List α)
    (seen : List α) (x : α) (hx : x ∉ l) :
    dedupeAux (x :: seen) l = dedupeAux seen l := by
  induction l generalizing seen with
  | nil => rfl
  | cons z zs ih =>
    have hzx : ¬z = x := fun h =>
      hx (by rw [← h]; exact List.mem_cons_self z zs)
    have hxzs : x ∉ zs := fun h => hx (List.mem_cons_of_mem z h)
    by_cases hz : z ∈ seen
    · rw [dedupeAux, dedupeAux, if_pos (List.mem_cons_of_mem x hz), if_pos hz]
      exact ih seen hxzs
    · have hz2 : z ∉ x :: seen := by simp [List.mem_cons, hzx, hz]
      rw [dedupeAux, dedupeAux, if_neg hz2, if_neg hz]
      congr 1
      calc dedupeAux (z :: x :: seen) zs
          = dedupeAux (x :: z :: seen) zs := by
            refine dedupeAux_congr zs _ _ fun y => ?_
            simp only [List.mem_cons]
            tauto
        _ = dedupeAux (z :: seen) zs := ih (z :: seen) hxzs

theorem dedupe_cons_first {α : Type} [DecidableEq α] (x : α) (l : List α) :
    Dedupe (x :: l) = x :: Dedupe (l.filter fun y => !(y == x)) := by
  show dedupeAux [] (x :: l) = _
  rw [dedupeAux, if_neg (List.not_mem_nil x)]
  congr 1
  rw [dedupeAux_filter_seen l [x] x (List.mem_cons_self x [])]
  exact dedupeAux_unseen _ [] x (by simp [List.mem_filter])

/-! ## Claim theorems -/

/-- C1: the classifier loop in `Run` partitions the raw endpoint-matcher
candidates: each candidate goes, in input order, to exactly one of the two
output sequences (`urls` when the case-sensitive `"http"`/`"https"` literal
prefix test passes, `endpoints` otherwise); the lengths add up, every `urls`
element passes the test and no `endpoints` element does. -/
theorem classifier_partitions_raw_matches (l : List String) :
    (classify l).1.length + (classify l).2.length = l.length ∧
    (classify l).1 = (l.filter fun v => isUrlCandidate v) ∧
    (classify l).2 = (l.filter fun v => !isUrlCandidate v) ∧
    (∀ v ∈ (classify l).1, isUrlCandidate v = true) ∧
    (∀ v ∈ (classify l).2, isUrlCandidate v = false) := by
  have hc := classify_eq l
  refine ⟨?_, ?_, ?_, ?_, ?_⟩
  · rw [hc]
    exact length_filter_add_length_filter _ l
  · rw [hc]
  · rw [hc]
  · rw [hc]
    intro v hv
    exact List.of_mem_filter hv
  · rw [hc]
    intro v hv
    simpa using List.of_mem_filter hv

theorem classifier_partitions_raw_matches_witness :
    isUrlCandidate "https://example.com/x" = true :=
  (classifier_partitions_raw_matches
      ["/api/v1/login", "https://example.com/x"]).2.2.2.1
    "https://example.com/x" (by decide)

/-- C2: the deduplication applied in `Run` is a stable first-occurrence
dedup: the output has no repeats, is a subsequence of the input, keeps
exactly the input's values, keeps each first occurrence in place (dropping
only the later duplicates), is idempotent, and maps
`["id","name","id","token","name"]` to `["id","name","token"]`. -/
theorem dedupe_stable_idempotent (l : List String) :
    (Dedupe l).Nodup ∧
    (Dedupe l).Sublist l ∧
    (∀ y, y ∈ Dedupe l ↔ y ∈ l) ∧
    (∀ (x : String) (t : List String),
      Dedupe (x :: t) = x :: Dedupe (t.filter fun y => !(y == x))) ∧
    Dedupe (Dedupe l) = Dedupe l ∧
    Dedupe ["id", "name", "id", "token", "name"] = ["id", "name", "token"] := by
  refine ⟨dedupeAux_nodup l [], dedupeAux_sublist l [], ?_, ?_, ?_, by decide⟩
  · intro y
    rw [Dedupe, mem_dedupeAux]
    simp
  · exact fun x t => dedupe_cons_first x t
  · exact dedupeAux_eq_self _ [] (dedupeAux_nodup l []) (by simp)

theorem secretsMatch_length (rules : List Secret) (source : String)
    (data : ByteData) :
    (SecretsMatch rules source data).length =
      (rules.map fun r => (r.occurrences data).length).sum := by
  induction rules with
  | nil => rfl
  | cons r rs ih =>
    simp only [SecretsMatch, List.flatMap_cons, List.length_append,
      List.length_map, List.map_cons, List.sum_cons] at *
    omega

/-- C3: the scan is total on arbitrary byte content — for every byte
sequence (no well-formedness hypothesis, malformed encodings included) and
every source identifier, `Run` is a plain total function producing the four
result slots, the url/endpoint slots partition the raw endpoint matches, and
the parameter slot is a duplicate-free subsequence of the raw parameter
matches.  No error value exists in `Run`'s type: every matcher degrades to
an empty result list rather than failing. -/
theorem scan_total_on_arbitrary_bytes (rules : List Secret) (data : ByteData)
    (source : String) :
    (Run rules data source).urls.length +
        (Run rules data source).endpoints.length =
      (EndpointsMatch data).length ∧
    (Run rules data source).parameters.Nodup ∧
    (Run rules data source).parameters.Sublist
      (ParameterMatch (bytesToString data)) := by
  refine ⟨?_, dedupeAux_nodup _ [], dedupeAux_sublist _ []⟩
  show (classify (EndpointsMatch data)).1.length +
      (classify (EndpointsMatch data)).2.length = _
  rw [classify_eq]
  exact length_filter_add_length_filter _ _

/-- C4: secret matches are never deduplicated by the core — `Run` returns
the `SecretsMatch` output unchanged, its length is the sum over all rules of
their occurrence counts, and only the parameter slot goes through `Dedupe`. -/
theorem secrets_reported_per_occurrence (rules : List Secret)
    (data : ByteData) (source : String) :
    (Run rules data source).secrets = SecretsMatch rules source data ∧
    (Run rules data source).secrets.length =
      (rules.map fun r => (r.occurrences data).length).sum ∧
    (Run rules data source).parameters =
      Dedupe (ParameterMatch (bytesToString data)) :=
  ⟨rfl, secretsMatch_length rules source data, rfl⟩

/-- C5: on every call the core computes and returns all four result
categories, independently of the presentation flags (which `Run` does not
even receive); `HandleResults` only selects among the four precomputed
category blocks and never alters or recomputes them. -/
theorem core_computes_all_categories (e p u s a : Bool) (rules : List Secret)
    (data : ByteData) (source : String) :
    (Run rules data source).secrets = SecretsMatch rules source data ∧
    (Run rules data source).urls = (classify (EndpointsMatch data)).1 ∧
    (Run rules data source).endpoints = (classify (EndpointsMatch data)).2 ∧
    (Run rules data source).parameters =
      Dedupe (ParameterMatch (bytesToString data)) ∧
    ∀ b ∈ HandleResults e p u s a (Run rules data source).secrets
        (Run rules data source).urls (Run rules data source).endpoints
        (Run rules data source).parameters,
      b = Output.secretsBlock (Run rules data source).secrets ∨
      b = Output.urlsBlock (Run rules data source).urls ∨
      b = Output.endpointsBlock (Run rules data source).endpoints ∨
      b = Output.parametersBlock (Run rules data source).parameters := by
  refine ⟨rfl, rfl, rfl, rfl, ?_⟩
  intro b hb
  cases e <;> cases p <;> cases u <;> cases s <;> cases a <;>
    simp only [HandleResults, if_true, if_false, Bool.false_eq_true,
      List.mem_cons, List.mem_singleton, List.not_mem_nil, or_false,
      if_neg, if_pos] at hb <;> tauto

theorem core_computes_all_categories_witness :
    Output.secretsBlock (Run [] [] "src").secrets =
        Output.secretsBlock (Run [] [] "src").secrets ∨
      Output.secretsBlock (Run [] [] "src").secrets =
        Output.urlsBlock (Run [] [] "src").urls ∨
      Output.secretsBlock (Run [] [] "src").secrets =
        Output.endpointsBlock (Run [] [] "src").endpoints ∨
      Output.secretsBlock (Run [] [] "src").secrets =
        Output.parametersBlock (Run [] [] "src").parameters :=
  (core_computes_all_categories false false false false false [] [] "src").2.2.2.2
    (Output.secretsBlock (Run [] [] "src").secrets) (List.mem_cons_self _ _)

/-- C6: when no selection flag is given (all five flags false), the
presentation layer prints the secrets block only. -/
theorem default_selection_secrets_only (secrets : List SecretMatched)
    (urls endpoints parameters : List String) :
    HandleResults false false false false false secrets urls endpoints
        parameters =
      [Output.secretsBlock secrets] := rfl

/-- C7: a non-empty custom header that does not split on `:` into exactly
one name/value pair is a fatal configuration error in `Request` (before any
scan can run, since no response body is produced), while a well-formed
`Name: Value` header is accepted with the value whitespace-trimmed, never
silently ignored. -/
theorem malformed_header_is_fatal (hd n v : String) (u : ParsedURL)
    (f : Except String ByteData) :
    (hd ≠ "" → (goSplit ':' hd).length ≠ 2 → u.host ≠ "" →
      Request u hd f = ReqOutcome.fatalConfig) ∧
    (goSplit ':' hd = [n, v] → hd ≠ "" →
      applyCustomHeader hd = HeaderAction.setHeader n (trimSpace v)) ∧
    applyCustomHeader "Name: Value" = HeaderAction.setHeader "Name" "Value" := by
  refine ⟨?_, ?_, by decide⟩
  · intro hne hlen hhost
    have hfatal : applyCustomHeader hd = HeaderAction.fatal := by
      unfold applyCustomHeader
      rw [if_neg hne]
      rcases hsp : goSplit ':' hd with _ | ⟨a, _ | ⟨b, _ | ⟨c, t⟩⟩⟩
      · rfl
      · rfl
      · exact absurd (by rw [hsp]; rfl) hlen
      · rfl
    unfold Request
    rw [if_neg hhost, hfatal]
  · intro hsp hne
    unfold applyCustomHeader
    rw [if_neg hne, hsp]

theorem malformed_header_is_fatal_witness :
    Request ⟨"https", "example.com"⟩ "badheader" (Except.ok []) =
      ReqOutcome.fatalConfig :=
  (malformed_header_is_fatal "badheader" "" "" ⟨"https", "example.com"⟩
      (Except.ok [])).1 (by decide) (by decide) (by decide)

/-- C8: a target URL with an empty host makes `Request` return an error
instead of fetching, and the batch loop records that source as skipped and
continues unchanged with the remaining sources. -/
theorem invalid_host_reported_and_skipped (rules : List Secret) (o : options)
    (i : SourceInput) (rest : List SourceInput) (h : i.parsed.host = "") :
    Request i.parsed o.header i.fetched =
      ReqOutcome.failed ReqError.invalidDomain ∧
    processBatch rules o (i :: rest) =
      BatchEvent.skipped i.sourceID ReqError.invalidDomain ::
        processBatch rules o rest := by
  have hreq : Request i.parsed o.header i.fetched =
      ReqOutcome.failed ReqError.invalidDomain := by
    unfold Request
    rw [if_pos h]
  refine ⟨hreq, ?_⟩
  simp only [processBatch, hreq]

theorem invalid_host_reported_and_skipped_witness :
    processBatch [] ⟨"", "", "", false, false, false, false, false, "", false⟩
        [⟨"bad-url", ⟨"", ""⟩, Except.ok []⟩] =
      [BatchEvent.skipped "bad-url" ReqError.invalidDomain] := by
  have h := (invalid_host_reported_and_skipped []
      ⟨"", "", "", false, false, false, false, false, "", false⟩
      ⟨"bad-url", ⟨"", ""⟩, Except.ok []⟩ [] rfl).2
  exact h

/-- C9: when at least two selection flags are set they never combine: the
presentation layer prints exactly one category, the one of the first true
flag in the fixed order endpoints, parameters, urls, secrets (the `all`
branch is unreachable with two or more flags set). -/
theorem selection_flags_do_not_combine (e p u s a : Bool)
    (secrets : List SecretMatched) (urls endpoints parameters : List String)
    (h : 2 ≤ countTrue [e, p, u, s, a]) :
    (HandleResults e p u s a secrets urls endpoints parameters).length = 1 ∧
    HandleResults e p u s a secrets urls endpoints parameters =
      (if e then [Output.endpointsBlock endpoints]
       else if p then [Output.parametersBlock parameters]
       else if u then [Output.urlsBlock urls]
       else [Output.secretsBlock secrets]) := by
  cases e <;> cases p <;> cases u <;> cases s <;> cases a <;>
    first
      | exact absurd h (by decide)
      | exact ⟨rfl, rfl⟩

theorem selection_flags_do_not_combine_witness :
    HandleResults true false false true false [] ["u1"] ["e1"] ["p1"] =
      [Output.endpointsBlock ["e1"]] := by
  have h := (selection_flags_do_not_combine true false false true false []
      ["u1"] ["e1"] ["p1"] (by decide)).2
  exact h

/-- C10: when the `-file` flag is non-empty, `main` scans exactly that one
local file and returns at once: the trace is a single `fileScan` of that
file, and it is unchanged under arbitrary changes to the `-url` and `-list`
flags, the stdin state, and every other environment input except the file's
own read outcome. -/
theorem file_mode_ignores_other_inputs (rules : List Secret) (o o2 : options)
    (env env2 : InputEnv) (h : o.file ≠ "")
    (hfile : o2.file = o.file) (hend : o2.endpoint = o.endpoint)
    (hpar : o2.parameter = o.parameter) (hurls : o2.urls = o.urls)
    (hsec : o2.secret = o.secret) (hall : o2.all = o.all)
    (hread : env2.fileRead = env.fileRead) :
    mainDispatch rules o env =
      RunTrace.fileScan o.file
        (HandleResults o.endpoint o.parameter o.urls o.secret o.all
          (Run rules (fileData env) o.file).secrets
          (Run rules (fileData env) o.file).urls
          (Run rules (fileData env) o.file).endpoints
          (Run rules (fileData env) o.file).parameters) ∧
    mainDispatch rules o2 env2 = mainDispatch rules o env := by
  have h2 : o2.file ≠ "" := by rw [hfile]; exact h
  have hcond : ¬(o.url = "" ∧ o.list = "" ∧ o.file = "" ∧
      ¬(env.hasStdin = true)) := fun hc => h hc.2.2.1
  have hcond2 : ¬(o2.url = "" ∧ o2.list = "" ∧ o2.file = "" ∧
      ¬(env2.hasStdin = true)) := fun hc => h2 hc.2.2.1
  have hfd : fileData env2 = fileData env := by
    unfold fileData
    rw [hread]
  have e1 : mainDispatch rules o env =
      RunTrace.fileScan o.file
        (HandleResults o.endpoint o.parameter o.urls o.secret o.all
          (Run rules (fileData env) o.file).secrets
          (Run rules (fileData env) o.file).urls
          (Run rules (fileData env) o.file).endpoints
          (Run rules (fileData env) o.file).parameters) := by
    simp only [mainDispatch]
    rw [if_neg hcond, if_pos h]
  have e2 : mainDispatch rules o2 env2 =
      RunTrace.fileScan o2.file
        (HandleResults o2.endpoint o2.parameter o2.urls o2.secret o2.all
          (Run rules (fileData env2) o2.file).secrets
          (Run rules (fileData env2) o2.file).urls
          (Run rules (fileData env2) o2.file).endpoints
          (Run rules (fileData env2) o2.file).parameters) := by
    simp only [mainDispatch]
    rw [if_neg hcond2, if_pos h2]
  refine ⟨e1, ?_⟩
  rw [e2, e1, hfile, hend, hpar, hurls, hsec, hall, hfd]

theorem file_mode_ignores_other_inputs_witness :
    mainDispatch []
        ⟨"f.js", "http://x", "l.txt", false, false, false, false, false, "", false⟩
        ⟨Except.ok [], true, ["http://a"], true, ["http://b"],
          fun _ => ⟨"", ""⟩, fun _ => Except.ok []⟩ =
      RunTrace.fileScan "f.js" [Output.secretsBlock []] := by
  have h := (file_mode_ignores_other_inputs []
      ⟨"f.js", "http://x", "l.txt", false, false, false, false, false, "", false⟩
      ⟨"f.js", "http://x", "l.txt", false, false, false, false, false, "", false⟩
      ⟨Except.ok [], true, ["http://a"], true, ["http://b"],
        fun _ => ⟨"", ""⟩, fun _ => Except.ok []⟩
      ⟨Except.ok [], true, ["http://a"], true, ["http://b"],
        fun _ => ⟨"", ""⟩, fun _ => Except.ok []⟩
      (by decide) rfl rfl rfl rfl rfl rfl rfl).1
  exact h

end Extractify
